import Mathlib

/-!
# Verification of the k-DOP volume kernel and optimizer drivers

Shallow embedding of the geometry kernel (`kdop_trace_range`, `kdop_distance`,
`create_tangent_space`, `signed_angle`-based vertex sorting, `calc_kdop_volume`)
and of the two local-search drivers (`sphere_optimizer.cc`, `image_optimizer.cc`).

Embedding conventions:
* All scalar arithmetic is modelled exactly over an arbitrary linear ordered
  field `α` (instantiated at `ℚ` for concrete evaluation).  This is the exact
  real-arithmetic idealization of the reference's `double` computations; the
  spec states its numeric properties with tolerances precisely because the
  reference uses floating point, and the claims are settled for the exact
  semantics of the same operations.
* Decimal constants of the source (`1e-7`, `1e-5`, `FLT_MAX`,
  `M_1_SQRT3 = 0.57735026918962576451`) are embedded as the exact rational
  values of those decimal literals.
* `glm::normalize` inside `create_tangent_space` divides `cross(normal, major)`
  by its (irrational) Euclidean length `L > 0`.  The tangent and bitangent are
  used only through `signed_angle p pivot tbn = atan2(dot(tangent, δ),
  dot(bitangent, δ))`, and `atan2(L*y, L*x) = atan2(y, x)` for every `L > 0`,
  so dropping the normalization changes no `signed_angle` value and no sort
  comparison; the embedding therefore keeps the unnormalized tangent frame,
  which is exact over a field.  This invariance is proved below as
  `angle_lt_frame_rescale` (via `atan2_lt_smul`).  (For every unit `normal`
  the chosen `major` axis is never parallel to it, so `L > 0` holds in all
  uses the program makes.)
* `std::sort` with the strict comparator `signed_angle a < signed_angle b` is
  modelled by insertion sort with the exact comparator; any two points with
  distinct angles are ordered identically by every correct sort (and on every
  concrete input evaluated below, no two distinct collected vertices compare
  equal, so the sorted order is uniquely determined).
* The comparison `atan2(y1, x1) < atan2(y2, x2)` is decided exactly by
  quadrant classification plus a cross-product test (see `atan2_class`,
  `atan2_lt`), with no transcendental functions: `atan2` values lie in
  `(-π, π]`, the classes (lower half-plane, angle `0`, upper half-plane,
  angle `π`) are strictly increasing in that order, and within an open
  half-plane `atan2(y1,x1) < atan2(y2,x2) ↔ x1*y2 - y1*x2 > 0`.  That this
  comparator decides exactly the comparison of the mathematical `atan2`
  values (realized as `Complex.arg`) is proved below:
  `atan2_lt_iff_arg_lt` and `angle_lt_decides_signed_angle`.
* The source forms the tetrahedron matrix through a single-precision `mat4`
  temporary (`dmat4 m = mat4(...)`); like every other float/double
  distinction, this narrowing is the identity in the exact idealization.
* Division by zero in a field yields `0` in Lean.  The only place the source
  can divide by zero is `inv = 1/(1-d*d)` for exactly parallel axis pairs,
  where the reference produces non-finite values (and the spec explicitly
  declines to defend against it); no claim settled here depends on that case,
  and in particular every axis pair of the concrete inputs below has
  `d*d ≠ 1`, every traced `1/d` has `|d| ≥ 1e-7`, and every tangent frame is
  nondegenerate, so no division by zero occurs in any evaluated input.
-/

set_option maxRecDepth 4000

/- Batteries marks the `Rat` field operations `@[irreducible]`, which blocks
`decide`-style evaluation of the embedding at `α := ℚ`; restore the default
transparency for them (file-local, proof-search only — the kernel is
unaffected either way). -/
set_option allowUnsafeReducibility true

attribute [local semireducible] Rat.add Rat.sub Rat.mul Rat.inv

namespace KDop

/-- A 3-component vector over an ordered field, embedding glm's `dvec3`. -/
structure Vec3 (α : Type) where
  x : α
  y : α
  z : α
deriving Repr, DecidableEq

variable {α : Type} [LinearOrderedField α]

instance : Add (Vec3 α) := ⟨fun u v => ⟨u.x + v.x, u.y + v.y, u.z + v.z⟩⟩

instance : Sub (Vec3 α) := ⟨fun u v => ⟨u.x - v.x, u.y - v.y, u.z - v.z⟩⟩

instance : SMul α (Vec3 α) := ⟨fun c v => ⟨c * v.x, c * v.y, c * v.z⟩⟩

@[simp] theorem Vec3.add_def (u v : Vec3 α) :
    u + v = ⟨u.x + v.x, u.y + v.y, u.z + v.z⟩ := rfl

@[simp] theorem Vec3.sub_def (u v : Vec3 α) :
    u - v = ⟨u.x - v.x, u.y - v.y, u.z - v.z⟩ := rfl

@[simp] theorem Vec3.smul_def (c : α) (v : Vec3 α) :
    c • v = ⟨c * v.x, c * v.y, c * v.z⟩ := rfl

/-- glm `dot` for 3-vectors. -/
def dot (u v : Vec3 α) : α := u.x * v.x + u.y * v.y + u.z * v.z

/-- glm `cross` for 3-vectors. -/
def cross (u v : Vec3 α) : Vec3 α :=
  ⟨u.y * v.z - u.z * v.y, u.z * v.x - u.x * v.z, u.x * v.y - u.y * v.x⟩

/-- One axis record of the k-DOP: the axis direction and the `(min, max)`
extent pair (`axes[a]` and `ranges[a]` of the source, kept side by side). -/
abbrev AxisRange (α : Type) := Vec3 α × α × α

/-- `FLT_MAX`, the exact value of the largest finite IEEE-754 single-precision
float, used by `kdop_trace_range` to initialize the ray interval. -/
def fltMax : α := 340282346638528859811704183484516925440

/-- The `1e-7` near-perpendicular guard of `kdop_trace_range`, as the exact
rational value of the decimal literal. -/
def traceEps : α := 1 / 10000000

/-- The `1e-5` acceptance / deduplication epsilon of `calc_kdop_volume`. -/
def epsilon : α := 1 / 100000

/-- The source's `M_1_SQRT3` constant `0.57735026918962576451`, exactly. -/
def m1Sqrt3 : α := 57735026918962576451 / 100000000000000000000

/-- The loop body of `kdop_trace_range`: one slab of the k-DOP tightens the
running `(near, far)` interval, unless the slab is excluded (by index) or the
ray is nearly perpendicular to its axis.  `i` is the index of the current
entry, so the recursion walks the array exactly like the source's `for` loop. -/
def trace_go (pos dir : Vec3 α) (ex1 ex2 : ℕ) :
    ℕ → List (AxisRange α) → α × α → α × α
  | _, [], nf => nf
  | i, (axis, lo, hi) :: rest, nf =>
    trace_go pos dir ex1 ex2 (i+1) rest <|
      if i = ex1 ∨ i = ex2 then nf
      else
        let proj_pos := dot pos axis
        let d := dot dir axis
        if |d| < traceEps then nf
        else
          let inv_dir := 1 / d
          let t0 := (lo - proj_pos) * inv_dir
          let t1 := (hi - proj_pos) * inv_dir
          (max nf.1 (min t0 t1), min nf.2 (max t0 t1))

/-- `kdop_trace_range`: signed parametric interval of the ray
`pos + t * dir` against every slab except the two excluded ones. -/
def kdop_trace_range (pos dir : Vec3 α) (axesRanges : List (AxisRange α))
    (ex1 ex2 : ℕ) : α × α :=
  trace_go pos dir ex1 ex2 0 axesRanges (-fltMax, fltMax)

/-- The per-axis violation amount computed inside `kdop_distance`'s loop:
how far `dot pos axis` lies outside `[lo, hi]` (`0` if inside). -/
def axis_violation (pos : Vec3 α) (ar : AxisRange α) : α :=
  let proj_pos := dot pos ar.1
  if proj_pos < ar.2.1 then ar.2.1 - proj_pos
  else if proj_pos > ar.2.2 then proj_pos - ar.2.2
  else 0

/-- `kdop_distance`: worst-case constraint violation of `pos` over all axes. -/
def kdop_distance (pos : Vec3 α) (axesRanges : List (AxisRange α)) : α :=
  axesRanges.foldl
    (fun max_dist ar =>
      let distance := axis_violation pos ar
      if distance > max_dist then distance else max_dist)
    0

/-- `create_tangent_space`, with the normalization of the tangent dropped
(see the header comment: both `tangent` and `bitangent` are scaled by the same
positive factor `1/L`, which changes no `signed_angle` value). -/
def create_tangent_space (normal : Vec3 α) : Vec3 α × Vec3 α × Vec3 α :=
  let major : Vec3 α :=
    if |normal.x| < m1Sqrt3 then ⟨1,0,0⟩
    else if |normal.y| < m1Sqrt3 then ⟨0,1,0⟩
    else ⟨0,0,1⟩
  let tangent := cross normal major
  let bitangent := cross normal tangent
  (tangent, bitangent, normal)

/-- The two arguments `(y, x)` the source passes to `atan2` inside
`signed_angle p pivot tbn = atan2(dot(tbn[0], p-pivot), dot(tbn[1], p-pivot))`. -/
def signed_angle_args (p pivot : Vec3 α) (tbn : Vec3 α × Vec3 α × Vec3 α) :
    α × α :=
  let delta := p - pivot
  (dot tbn.1 delta, dot tbn.2.1 delta)

/-- Strictly increasing coarse classification of `atan2 y x ∈ (-π, π]`:
`0` for the open lower half-plane `(-π, 0)`, `1` for angle `0` (`y = 0`,
`x ≥ 0`, including `atan2 0 0 = 0`), `2` for the open upper half-plane
`(0, π)`, `3` for angle `π` (`y = 0`, `x < 0`). -/
def atan2_class (y x : α) : ℕ :=
  if y < 0 then 0
  else if 0 < y then 2
  else if 0 ≤ x then 1
  else 3

/-- Exact decision of `atan2 y1 x1 < atan2 y2 x2`: compare the classes, and
inside a common open half-plane compare by the planar cross product
(`sin` of the angle difference has the sign of `x1*y2 - y1*x2` there). -/
def atan2_lt (y1 x1 y2 x2 : α) : Bool :=
  let c1 := atan2_class y1 x1
  let c2 := atan2_class y2 x2
  if c1 = c2 then
    decide ((c1 = 0 ∨ c1 = 2) ∧ 0 < x1 * y2 - y1 * x2)
  else decide (c1 < c2)

/-- The comparator handed to `std::sort`:
`signed_angle a ref tbn < signed_angle b ref tbn`. -/
def angle_lt (ref : Vec3 α) (tbn : Vec3 α × Vec3 α × Vec3 α)
    (a b : Vec3 α) : Bool :=
  let pa := signed_angle_args a ref tbn
  let pb := signed_angle_args b ref tbn
  atan2_lt pa.1 pa.2 pb.1 pb.2

/-- Insert into a sorted list with respect to a strict `Bool` comparator. -/
def insert_sorted (lt : Vec3 α → Vec3 α → Bool) (v : Vec3 α) :
    List (Vec3 α) → List (Vec3 α)
  | [] => [v]
  | w :: ws => if lt v w then v :: w :: ws else w :: insert_sorted lt v ws

/-- Insertion sort with a strict `Bool` comparator, modelling the
`std::sort` call on each face's vertex list. -/
def sort_by_angle (lt : Vec3 α → Vec3 α → Bool) : List (Vec3 α) → List (Vec3 α)
  | [] => []
  | v :: vs => insert_sorted lt v (sort_by_angle lt vs)

/-- The deduplication loop: drop the current vertex whenever its squared
distance to the previously kept vertex (`prev`, initially the original last
element) is below `epsilon^2`; `prev` advances only past kept vertices. -/
def dedup_pass (prev : Vec3 α) : List (Vec3 α) → List (Vec3 α)
  | [] => []
  | c :: rest =>
    let delta := prev - c
    if dot delta delta < epsilon * epsilon then dedup_pass prev rest
    else c :: dedup_pass c rest

/-- De-duplicate a face's sorted vertex list exactly as the source's erase
loop does, seeding `prev` with the list's last element (wraparound). -/
def dedup_vertices (l : List (Vec3 α)) : List (Vec3 α) :=
  dedup_pass (l.getLastD ⟨0,0,0⟩) l

/-- Append a vertex to side `i`'s vertex list (`sides[i].vertices.push_back`). -/
def push_vertex (i : ℕ) (v : Vec3 α) :
    List (List (Vec3 α)) → List (List (Vec3 α))
  | [] => []
  | s :: ss =>
    match i with
    | 0 => (s ++ [v]) :: ss
    | n+1 => s :: push_vertex n v ss

/-- The 2×2 linear solve of `calc_kdop_volume`'s edge loop: a point on the
line where plane `a` (offset `h1`) meets plane `b` (offset `h2`), computed as
`c1*a_axis + c2*b_axis` with `c1 = (h1 - h2*d)*inv`, `c2 = (h2 - h1*d)*inv`,
`inv = 1/(1 - d*d)`, `d = dot(a_axis, b_axis)`. -/
def edge_point (a_axis b_axis : Vec3 α) (h1 h2 : α) : Vec3 α :=
  let d := dot a_axis b_axis
  let inv := 1 / (1 - d * d)
  let c1 := (h1 - h2 * d) * inv
  let c2 := (h2 - h1 * d) * inv
  c1 • a_axis + c2 • b_axis

/-- Body of the innermost (`i < 4`) loop of `calc_kdop_volume`: one of the
four min/max offset combinations of the ordered axis pair `(a, b)`.  Solves
the 2×2 system for a point on the candidate edge line, traces the line
against the remaining slabs, and appends the validated endpoints to both
incident sides. -/
def edge_case_step (axesRanges : List (AxisRange α)) (a b : ℕ)
    (sides : List (List (Vec3 α))) (i : ℕ) : List (List (Vec3 α)) :=
  let dflt : AxisRange α := (⟨0,0,0⟩, 0, 0)
  let a_axis := (axesRanges.getD a dflt).1
  let b_axis := (axesRanges.getD b dflt).1
  let dir := cross a_axis b_axis
  let a_high := i % 2
  let b_high := i / 2
  let a_side := a * 2 + a_high
  let b_side := b * 2 + b_high
  let h1 := if a_high = 1 then (axesRanges.getD a dflt).2.2
            else (axesRanges.getD a dflt).2.1
  let h2 := if b_high = 1 then (axesRanges.getD b dflt).2.2
            else (axesRanges.getD b dflt).2.1
  let point := edge_point a_axis b_axis h1 h2
  let hits := kdop_trace_range point dir axesRanges a b
  if hits.1 > hits.2 then sides
  else
    let va := point + hits.1 • dir
    let vb := point + hits.2 • dir
    let sides1 :=
      if kdop_distance va axesRanges < epsilon then
        push_vertex b_side va (push_vertex a_side va sides)
      else sides
    if kdop_distance vb axesRanges < epsilon then
      push_vertex b_side vb (push_vertex a_side vb sides1)
    else sides1

/-- The vertex-collection phase of `calc_kdop_volume`: all ordered pairs of
distinct axes, four offset combinations each. -/
def collect_sides (axesRanges : List (AxisRange α)) : List (List (Vec3 α)) :=
  let n := axesRanges.length
  (List.range n).foldl
    (fun sides a =>
      (List.range n).foldl
        (fun sides b =>
          if b = a then sides
          else (List.range 4).foldl (edge_case_step axesRanges a b) sides)
        sides)
    (List.replicate (n * 2) [])

/-- The reference center: the first vertex of the first side holding more
than two vertices (`dvec3(0)` if no side qualifies). -/
def find_ref_center : List (List (Vec3 α)) → Vec3 α
  | [] => ⟨0,0,0⟩
  | s :: ss => if 2 < s.length then s.headD ⟨0,0,0⟩ else find_ref_center ss

/-- Determinant of a 3×3 matrix given by three column vectors. -/
def det3 (u v w : Vec3 α) : α :=
  u.x * (v.y * w.z - v.z * w.y)
  - u.y * (v.x * w.z - v.z * w.x)
  + u.z * (v.x * w.y - v.y * w.x)

/-- Determinant of the source's 4×4 homogeneous matrix with columns
`(va,1), (vb,1), (ref2,1), (refc,1)`, by Laplace expansion along the
bottom row of ones. -/
def det4 (va vb ref2 refc : Vec3 α) : α :=
  -det3 vb ref2 refc + det3 va ref2 refc - det3 va vb refc + det3 va vb ref2

/-- The triangle-fan accumulation at the end of `calc_kdop_volume`'s per-side
loop: `va` walks the sorted unique vertices, each fan triangle
`(va, vb, ref2)` forms a tetrahedron with the global `ref_center`, and
`|det|/6` is accumulated. -/
def fan_sum (ref2 refc va : Vec3 α) : List (Vec3 α) → α
  | [] => 0
  | vb :: rest => |det4 va vb ref2 refc| / 6 + fan_sum ref2 refc vb rest

/-- The centroid `ref` of a face's vertex list (`ref /= si.vertices.size()`). -/
def face_centroid (verts : List (Vec3 α)) : Vec3 α :=
  let s := verts.foldl (· + ·) ⟨0,0,0⟩
  let n : α := (verts.length : α)
  ⟨s.x / n, s.y / n, s.z / n⟩

/-- The fan walk of a face's sorted, de-duplicated vertex list: `ref2` is the
first vertex, `va` starts at the second, and the remaining vertices complete
the fan triangles (a list of fewer than two vertices contributes nothing). -/
def face_fan_volume (refc : Vec3 α) : List (Vec3 α) → α
  | v0 :: v1 :: rest => fan_sum v0 refc v1 rest
  | _ => 0

/-- One iteration of the per-side volume loop: sort the side's vertices by
signed angle around the centroid, de-duplicate, and accumulate the triangle
fan, skipping sides with at most two (unique) vertices. -/
def side_volume (axesRanges : List (AxisRange α)) (refc : Vec3 α) (i : ℕ)
    (verts : List (Vec3 α)) : α :=
  let dflt : AxisRange α := (⟨0,0,0⟩, 0, 0)
  let axis := (axesRanges.getD (i / 2) dflt).1
  if verts.length ≤ 2 then 0
  else
    let tbn := create_tangent_space axis
    let ref := face_centroid verts
    let sorted := sort_by_angle (angle_lt ref tbn) verts
    let uniq := dedup_vertices sorted
    if uniq.length ≤ 2 then 0
    else face_fan_volume refc uniq

/-- Sum of the per-side volumes, walking the sides with their indices
exactly like the source's final loop. -/
def sum_sides (axesRanges : List (AxisRange α)) (refc : Vec3 α) :
    ℕ → List (List (Vec3 α)) → α
  | _, [] => 0
  | i, s :: ss =>
    side_volume axesRanges refc i s + sum_sides axesRanges refc (i+1) ss

/-- `calc_kdop_volume`: total volume of the k-DOP described by
`axesRanges` (axis directions with `(min, max)` extents). -/
def calc_kdop_volume (axesRanges : List (AxisRange α)) : α :=
  let sides := collect_sides axesRanges
  let refc := find_ref_center sides
  sum_sides axesRanges refc 0 sides

/-! ## Concrete inputs -/

/-- The three standard basis axes with extents `(-1, 1)`: the cube `[-1,1]³`. -/
def cubeInput : List (AxisRange ℚ) :=
  [(⟨1,0,0⟩, -1, 1), (⟨0,1,0⟩, -1, 1), (⟨0,0,1⟩, -1, 1)]

/-- The degenerate one-axis input of the spec's edge-case scenario. -/
def singleAxisInput : List (AxisRange ℚ) := [(⟨1,0,0⟩, -1, 1)]

/-- A non-unit axis nearly parallel to `(0,1,0)` but tilted by `1e-8` in `x`
and `z`; its slab is almost coincident with the `y` slab, so edge endpoints on
one of the two nearly-coincident planes violate the other by `≈ 1.9e-8`,
well inside the `1e-5` acceptance tolerance. -/
def axC : Vec3 ℚ := ⟨1/100000000, 1 - 1/1000000000, 1/100000000⟩

/-- Four axes: the box `[-1,2] × [-1,1] × [-1,1]` plus the near-`y` axis
`axC` with extent `(-1, 1)`. -/
def permInputA : List (AxisRange ℚ) :=
  [(⟨1,0,0⟩, -1, 2), (⟨0,1,0⟩, -1, 1), (⟨0,0,1⟩, -1, 1), (axC, -1, 1)]

/-- The same multiset of `(axis, extent)` pairs as `permInputA`, with the
first and third entries swapped. -/
def permInputB : List (AxisRange ℚ) :=
  [(⟨0,0,1⟩, -1, 1), (⟨0,1,0⟩, -1, 1), (⟨1,0,0⟩, -1, 2), (axC, -1, 1)]

/-- Nine sample points for the C10 witness. -/
def ninePointsW : List (Vec3 ℚ) :=
  [⟨0,0,0⟩, ⟨1,0,0⟩, ⟨0,1,0⟩, ⟨0,0,1⟩, ⟨1,1,0⟩, ⟨1,0,1⟩, ⟨0,1,1⟩, ⟨1,1,1⟩,
   ⟨2,1,0⟩]

/-- Two axes for the C10 witness. -/
def smallAxesW : List (Vec3 ℚ) := [⟨1,0,0⟩, ⟨0,1,0⟩]

/-- `true` when two *distinct* vertices of one side compare equal under the
angle comparator (same class, zero cross product): such a tie would leave the
`std::sort` order underdetermined. -/
def side_has_angle_tie (axesRanges : List (AxisRange α)) (i : ℕ)
    (verts : List (Vec3 α)) : Bool :=
  let dflt : AxisRange α := (⟨0,0,0⟩, 0, 0)
  let axis := (axesRanges.getD (i / 2) dflt).1
  let tbn := create_tangent_space axis
  let ref := face_centroid verts
  verts.any fun a => verts.any fun b =>
    decide (a ≠ b) && !(angle_lt ref tbn a b) && !(angle_lt ref tbn b a)

/-- `true` when any sorted side of the input has an angle tie between
distinct vertices. -/
def has_angle_tie (axesRanges : List (AxisRange α)) : Bool :=
  ((collect_sides axesRanges).enum.map fun p =>
    if p.2.length ≤ 2 then false
    else side_has_angle_tie axesRanges p.1 p.2).any id

/-! ## Search drivers (`sphere_optimizer.cc` / `image_optimizer.cc`)

Both drivers keep a current best record and, per iteration, evaluate a
proposed axis set and accept it only on strict improvement; on rejection a
stagnation counter is incremented and, past a threshold, the perturbation
radius is halved.  The evaluation itself (random perturbation plus volume
computation) produces the per-iteration `(score, axes)` proposal; the
accept/reject state machine below is the exact loop body. -/

/-- The mutable loop state of either driver: in the sphere variant
`(best_volume, best_axes, no_improvement, perturbation)`, in the image
variant `(best_score, best_axes, fail_count, temperature)`. -/
structure OptState (α : Type) where
  bestScore : α
  bestAxes : List (Vec3 α)
  failCount : ℕ
  stepSize : α
deriving Repr, DecidableEq

/-- The accept/reject/shrink step shared by both drivers (threshold `1000`
in `sphere_optimizer.cc`, `100` in `image_optimizer.cc`): accept on strict
improvement (resetting the stagnation counter), otherwise increment the
counter and, once it exceeds the threshold, halve the step size and reset. -/
def accept_step (threshold : ℕ) (s : OptState α) (score : α)
    (axes : List (Vec3 α)) : OptState α :=
  if score < s.bestScore then
    { bestScore := score, bestAxes := axes, failCount := 0,
      stepSize := s.stepSize }
  else if threshold < s.failCount + 1 then
    { s with failCount := 0, stepSize := s.stepSize * (1/2) }
  else
    { s with failCount := s.failCount + 1 }

/-- One iteration of `sphere_optimizer.cc`'s loop body (threshold `1000`). -/
def sphere_accept_step (s : OptState α) (volume : α)
    (axes : List (Vec3 α)) : OptState α :=
  accept_step 1000 s volume axes

/-- One iteration of `image_optimizer.cc`'s loop body (threshold `100`). -/
def image_accept_step (s : OptState α) (cur_score : α)
    (axes : List (Vec3 α)) : OptState α :=
  accept_step 100 s cur_score axes

/-- A whole run of a driver over a sequence of evaluated proposals. -/
def run_search (step : OptState α → α → List (Vec3 α) → OptState α)
    (s0 : OptState α) (proposals : List (α × List (Vec3 α))) : OptState α :=
  proposals.foldl (fun s p => step s p.1 p.2) s0

/-! ## Final printing of the sphere optimizer

Before printing, `sphere_optimizer.cc` zeroes every axis component whose
absolute value is below `5e-3` and renormalizes — for *every* axis `i <
axis_count`, locked ones included.  `glm::normalize` divides by the
(irrational) Euclidean length, so it is characterized by the predicate
`NormalizesTo` rather than computed: `NormalizesTo v u` holds exactly of the
unit-length positive rescaling of `v`, which is `normalize(v)` whenever
`v ≠ 0`. -/

/-- The three `if(fabs(c) < 5e-3) c = 0;` statements of the final print loop. -/
def snap_small_components (v : Vec3 α) : Vec3 α :=
  ⟨if |v.x| < 5/1000 then 0 else v.x,
   if |v.y| < 5/1000 then 0 else v.y,
   if |v.z| < 5/1000 then 0 else v.z⟩

/-- `u` is `glm::normalize v`: a positive scalar multiple of `v` of unit
squared length. -/
def NormalizesTo (v u : Vec3 α) : Prop :=
  ∃ c : α, 0 < c ∧ u = c • v ∧ dot u u = 1

/-- The relation between the internal `best_axes` and the printed axis list:
each printed axis is the renormalization of the component-snapped best axis. -/
def printed_axis_list (best printed : List (Vec3 α)) : Prop :=
  List.Forall₂ (fun b p => NormalizesTo (snap_small_components b) p) best printed

/-! ## Image evaluator (`find_kdop_volume` of `image_optimizer.cc`)

The extents buffer is a fixed `vec2 axis_extents[32]`; both the
initialization loop and the update loop index it with `j < axis_count`.
Writes past index 31 are out of bounds, which the embedding models by
returning `none`.  The inner update walks the extent list and the axis list
in lockstep, exactly like the `j` loop body. -/

/-- One pass of the inner `j` loop for a single neighborhood point `p`:
fold `dot p axis` into every axis's running `(min, max)` pair. -/
def update_extents (p : Vec3 α) :
    List (α × α) → List (Vec3 α) → List (α × α)
  | e :: es, ax :: axs =>
    (min e.1 (dot p ax), max e.2 (dot p ax)) :: update_extents p es axs
  | _, _ => []

/-- The extent-computation phase of `find_kdop_volume`: initialize every
axis's pair to `(1e9, -1e9)`, then fold all neighborhood points in;
`none` models the out-of-bounds buffer accesses when `axis_count > 32`. -/
def find_kdop_extents (points axes : List (Vec3 α)) : Option (List (α × α)) :=
  if 32 < axes.length then none
  else some (points.foldl (fun es p => update_extents p es axes)
    (axes.map fun _ => ((1000000000 : α), -1000000000)))

/-- `find_kdop_volume`: per-axis extents of the neighborhood points, then
the volume kernel. -/
def find_kdop_volume (points axes : List (Vec3 α)) : Option α :=
  (find_kdop_extents points axes).map fun ext => calc_kdop_volume (axes.zip ext)

/-- The extents the claim describes: for each axis, exactly the minimum and
the maximum of `dot p axis` over the neighborhood points. -/
def spec_proj_extent (points : List (Vec3 α)) (ax : Vec3 α) : α × α :=
  match points with
  | [] => (0, 0)
  | p :: ps =>
    (ps.foldl (fun m q => min m (dot q ax)) (dot p ax),
     ps.foldl (fun m q => max m (dot q ax)) (dot p ax))

/-- The distance the claim describes for `kdop_distance`: the maximum of the
per-axis violations (and `0` with no axes). -/
def spec_max_violation (pos : Vec3 α) (l : List (AxisRange α)) : α :=
  (l.map (axis_violation pos)).foldr max 0

/-! ## Supporting lemmas -/

theorem dot_comm (u v : Vec3 α) : dot u v = dot v u := by
  unfold dot; ring

theorem dot_combo_left (c1 c2 : α) (a b w : Vec3 α) :
    dot (c1 • a + c2 • b) w = c1 * dot a w + c2 * dot b w := by
  simp only [dot, Vec3.smul_def, Vec3.add_def]; ring

theorem fan_sum_nonneg (ref2 refc va : Vec3 α) (l : List (Vec3 α)) :
    0 ≤ fan_sum ref2 refc va l := by
  induction l generalizing va with
  | nil => exact le_refl 0
  | cons vb rest ih =>
    have h1 : 0 ≤ |det4 va vb ref2 refc| / 6 := by positivity
    exact add_nonneg h1 (ih vb)

theorem face_fan_volume_nonneg (refc : Vec3 α) (l : List (Vec3 α)) :
    0 ≤ face_fan_volume refc l := by
  match l with
  | [] => exact le_refl 0
  | [v] => exact le_refl 0
  | v0 :: v1 :: rest => exact fan_sum_nonneg v0 refc v1 rest

theorem side_volume_nonneg (axesRanges : List (AxisRange α)) (refc : Vec3 α)
    (i : ℕ) (verts : List (Vec3 α)) :
    0 ≤ side_volume axesRanges refc i verts := by
  unfold side_volume
  dsimp only
  split_ifs
  · exact le_refl 0
  · exact le_refl 0
  · exact face_fan_volume_nonneg refc _

theorem sum_sides_nonneg (axesRanges : List (AxisRange α)) (refc : Vec3 α)
    (i : ℕ) (sides : List (List (Vec3 α))) :
    0 ≤ sum_sides axesRanges refc i sides := by
  induction sides generalizing i with
  | nil => exact le_refl 0
  | cons s ss ih =>
    exact add_nonneg (side_volume_nonneg axesRanges refc i s) (ih (i+1))

theorem accept_step_bestScore_le (threshold : ℕ) (s : OptState α) (score : α)
    (axes : List (Vec3 α)) :
    (accept_step threshold s score axes).bestScore ≤ s.bestScore := by
  unfold accept_step
  split_ifs with h1 h2
  · exact le_of_lt h1
  · exact le_refl _
  · exact le_refl _

theorem run_search_foldl_le (threshold : ℕ) (s0 : OptState α)
    (proposals : List (α × List (Vec3 α))) :
    (run_search (fun s v a => accept_step threshold s v a) s0
      proposals).bestScore ≤ s0.bestScore := by
  induction proposals generalizing s0 with
  | nil => exact le_refl _
  | cons p ps ih =>
    exact le_trans (ih (accept_step threshold s0 p.1 p.2))
      (accept_step_bestScore_le threshold s0 p.1 p.2)

theorem atan2_class_cases (y x : α) :
    (atan2_class y x = 0 ∧ y < 0) ∨ (atan2_class y x = 1 ∧ y = 0 ∧ 0 ≤ x) ∨
    (atan2_class y x = 2 ∧ 0 < y) ∨ (atan2_class y x = 3 ∧ y = 0 ∧ x < 0) := by
  unfold atan2_class
  split_ifs with h1 h2 h3
  · exact Or.inl ⟨rfl, h1⟩
  · exact Or.inr (Or.inr (Or.inl ⟨rfl, h2⟩))
  · exact Or.inr (Or.inl ⟨rfl, le_antisymm (not_lt.mp h2) (not_lt.mp h1), h3⟩)
  · exact Or.inr (Or.inr (Or.inr
      ⟨rfl, le_antisymm (not_lt.mp h2) (not_lt.mp h1), lt_of_not_le h3⟩))

theorem mk_ne_zero_of_im_ne {x y : ℝ} (h : y ≠ 0) : (⟨x, y⟩ : ℂ) ≠ 0 :=
  fun hz => h (by simpa using congrArg Complex.im hz)

theorem arg_mk_neg {x y : ℝ} (h : y < 0) :
    -Real.pi < (⟨x, y⟩ : ℂ).arg ∧ (⟨x, y⟩ : ℂ).arg < 0 :=
  ⟨Complex.neg_pi_lt_arg _, Complex.arg_neg_iff.mpr h⟩

theorem arg_mk_zero {x y : ℝ} (hy : y = 0) (hx : 0 ≤ x) :
    (⟨x, y⟩ : ℂ).arg = 0 :=
  Complex.arg_eq_zero_iff.mpr ⟨hx, hy⟩

theorem arg_mk_pos {x y : ℝ} (h : 0 < y) :
    0 < (⟨x, y⟩ : ℂ).arg ∧ (⟨x, y⟩ : ℂ).arg < Real.pi := by
  constructor
  · refine lt_of_le_of_ne (Complex.arg_nonneg_iff.mpr h.le) (fun hh => ?_)
    have h2 := (Complex.arg_eq_zero_iff.mp hh.symm).2
    simp only at h2
    linarith
  · refine lt_of_le_of_ne (Complex.arg_le_pi _) (fun hh => ?_)
    have h2 := (Complex.arg_eq_pi_iff.mp hh).2
    simp only at h2
    linarith

theorem arg_mk_pi {x y : ℝ} (hy : y = 0) (hx : x < 0) :
    (⟨x, y⟩ : ℂ).arg = Real.pi :=
  Complex.arg_eq_pi_iff.mpr ⟨hx, hy⟩

theorem arg_lt_arg_iff_cross {x1 y1 x2 y2 : ℝ}
    (hz : (⟨x1, y1⟩ : ℂ) ≠ 0) (hw : (⟨x2, y2⟩ : ℂ) ≠ 0)
    (hb : |(⟨x2, y2⟩ : ℂ).arg - (⟨x1, y1⟩ : ℂ).arg| < Real.pi) :
    ((⟨x1, y1⟩ : ℂ).arg < (⟨x2, y2⟩ : ℂ).arg ↔ 0 < x1 * y2 - y1 * x2) := by
  have hr1 : 0 < Complex.abs ⟨x1, y1⟩ := Complex.abs.pos hz
  have hr2 : 0 < Complex.abs ⟨x2, y2⟩ := Complex.abs.pos hw
  have hsin : Real.sin ((⟨x2, y2⟩ : ℂ).arg - (⟨x1, y1⟩ : ℂ).arg)
      = (x1 * y2 - y1 * x2) / (Complex.abs ⟨x1, y1⟩ * Complex.abs ⟨x2, y2⟩) := by
    rw [Real.sin_sub, Complex.sin_arg, Complex.sin_arg,
      Complex.cos_arg hz, Complex.cos_arg hw]
    show (y2 / _) * (x1 / _) - (x2 / _) * (y1 / _) = _
    field_simp
    ring
  constructor
  · intro hlt
    have hs := Real.sin_pos_of_pos_of_lt_pi (sub_pos.mpr hlt) (lt_of_abs_lt hb)
    rw [hsin] at hs
    rcases div_pos_iff.mp hs with ⟨h, _⟩ | ⟨_, hneg⟩
    · exact h
    · exact absurd (mul_pos hr1 hr2) (not_lt.mpr hneg.le)
  · intro hcross
    by_contra hnl
    push_neg at hnl
    have hs := Real.sin_nonpos_of_nonnpos_of_neg_pi_le
      (by linarith : (⟨x2, y2⟩ : ℂ).arg - (⟨x1, y1⟩ : ℂ).arg ≤ 0)
      (by linarith [neg_lt_of_abs_lt hb])
    rw [hsin] at hs
    have := div_pos hcross (mul_pos hr1 hr2)
    linarith

/-- The exact comparator `atan2_lt` decides precisely the comparison of the
mathematical `atan2` values (realized as `Complex.arg ⟨x, y⟩`, which is
`atan2 y x` with values in `(-π, π]`). -/
theorem atan2_lt_iff_arg_lt (y1 x1 y2 x2 : ℝ) :
    (atan2_lt y1 x1 y2 x2 = true) ↔
      (⟨x1, y1⟩ : ℂ).arg < (⟨x2, y2⟩ : ℂ).arg := by
  simp only [atan2_lt]
  rcases atan2_class_cases y1 x1 with ⟨e1, p1⟩ | ⟨e1, p1⟩ | ⟨e1, p1⟩ | ⟨e1, p1⟩ <;>
    rcases atan2_class_cases y2 x2 with ⟨e2, p2⟩ | ⟨e2, p2⟩ | ⟨e2, p2⟩ | ⟨e2, p2⟩ <;>
    rw [e1, e2] <;> norm_num
  · -- (0,0): both lower half
    have h := arg_lt_arg_iff_cross (mk_ne_zero_of_im_ne p1.ne)
      (mk_ne_zero_of_im_ne p2.ne)
      (abs_lt.mpr ⟨by linarith [(arg_mk_neg (x := x2) p2).1,
          (arg_mk_neg (x := x1) p1).2],
        by linarith [(arg_mk_neg (x := x2) p2).2, (arg_mk_neg (x := x1) p1).1]⟩)
    constructor
    · intro hlt
      exact h.mpr (by linarith)
    · intro hlt
      linarith [h.mp hlt]
  · -- (0,1)
    rw [arg_mk_zero p2.1 p2.2]
    exact (arg_mk_neg p1).2
  · -- (0,2)
    exact lt_trans (arg_mk_neg p1).2 (arg_mk_pos p2).1
  · -- (0,3)
    rw [arg_mk_pi p2.1 p2.2]
    exact lt_trans (arg_mk_neg p1).2 Real.pi_pos
  · -- (1,0)
    rw [arg_mk_zero p1.1 p1.2]
    exact (arg_mk_neg p2).2.le
  · -- (1,1)
    rw [arg_mk_zero p1.1 p1.2, arg_mk_zero p2.1 p2.2]
  · -- (1,2)
    rw [arg_mk_zero p1.1 p1.2]
    exact (arg_mk_pos p2).1
  · -- (1,3)
    rw [arg_mk_zero p1.1 p1.2, arg_mk_pi p2.1 p2.2]
    exact Real.pi_pos
  · -- (2,0)
    exact (lt_trans (arg_mk_neg p2).2 (arg_mk_pos p1).1).le
  · -- (2,1)
    rw [arg_mk_zero p2.1 p2.2]
    exact (arg_mk_pos p1).1.le
  · -- (2,2): both upper half
    have h := arg_lt_arg_iff_cross (mk_ne_zero_of_im_ne p1.ne')
      (mk_ne_zero_of_im_ne p2.ne')
      (abs_lt.mpr ⟨by linarith [(arg_mk_pos (x := x2) p2).1,
          (arg_mk_pos (x := x1) p1).2],
        by linarith [(arg_mk_pos (x := x2) p2).2, (arg_mk_pos (x := x1) p1).1]⟩)
    constructor
    · intro hlt
      exact h.mpr (by linarith)
    · intro hlt
      linarith [h.mp hlt]
  · -- (2,3)
    rw [arg_mk_pi p2.1 p2.2]
    exact (arg_mk_pos p1).2
  · -- (3,0)
    rw [arg_mk_pi p1.1 p1.2]
    exact Complex.arg_le_pi _
  · -- (3,1)
    rw [arg_mk_pi p1.1 p1.2, arg_mk_zero p2.1 p2.2]
    exact Real.pi_pos.le
  · -- (3,2)
    rw [arg_mk_pi p1.1 p1.2]
    exact Complex.arg_le_pi _
  · -- (3,3)
    rw [arg_mk_pi p1.1 p1.2, arg_mk_pi p2.1 p2.2]

/-- Positive rescaling of both `atan2` arguments does not change the class. -/
theorem atan2_class_smul (L : α) (hL : 0 < L) (y x : α) :
    atan2_class (L * y) (L * x) = atan2_class y x := by
  unfold atan2_class
  have hy : L * y < 0 ↔ y < 0 := by
    constructor
    · intro h; nlinarith
    · intro h; exact mul_neg_of_pos_of_neg hL h
  have hy' : 0 < L * y ↔ 0 < y := by
    constructor
    · intro h; nlinarith
    · intro h; exact mul_pos hL h
  have hx : 0 ≤ L * x ↔ 0 ≤ x := by
    constructor
    · intro h; nlinarith
    · intro h; exact mul_nonneg hL.le h
  rw [if_congr hy rfl (if_congr hy' rfl (if_congr hx rfl rfl))]

/-- Positive common rescaling of all four `atan2` arguments leaves the
comparator unchanged: this is `atan2(L*y, L*x) = atan2(y, x)` for `L > 0`,
the fact that lets the embedding drop the tangent-frame normalization. -/
theorem atan2_lt_smul (L : α) (hL : 0 < L) (y1 x1 y2 x2 : α) :
    atan2_lt (L * y1) (L * x1) (L * y2) (L * x2) = atan2_lt y1 x1 y2 x2 := by
  simp only [atan2_lt, atan2_class_smul L hL]
  have hcross : L * x1 * (L * y2) - L * y1 * (L * x2)
      = L * L * (x1 * y2 - y1 * x2) := by ring
  have hiff : 0 < L * x1 * (L * y2) - L * y1 * (L * x2)
      ↔ 0 < x1 * y2 - y1 * x2 := by
    rw [hcross]
    constructor
    · intro h; nlinarith
    · intro h; positivity
  by_cases hc : atan2_class y1 x1 = atan2_class y2 x2
  · rw [if_pos hc, if_pos hc]
    congr 1
    rw [eq_iff_iff]
    exact and_congr Iff.rfl hiff
  · rw [if_neg hc, if_neg hc]

theorem dot_smul_left (c : α) (u v : Vec3 α) :
    dot (c • u) v = c * dot u v := by
  simp only [dot, Vec3.smul_def]
  ring

/-- Rescaling the tangent and bitangent of the frame by a common positive
factor — exactly what `glm::normalize` does inside `create_tangent_space` —
leaves the sort comparator unchanged, which justifies the embedding's
unnormalized tangent frame. -/
theorem angle_lt_frame_rescale (L : α) (hL : 0 < L) (ref a b t bt n : Vec3 α) :
    angle_lt ref (L • t, L • bt, n) a b = angle_lt ref (t, bt, n) a b := by
  simp only [angle_lt, signed_angle_args]
  rw [dot_smul_left, dot_smul_left, dot_smul_left, dot_smul_left]
  exact atan2_lt_smul L hL _ _ _ _

/-- The comparator handed to the sort decides exactly
`signed_angle a ref tbn < signed_angle b ref tbn`, with
`signed_angle p ref tbn = atan2 (dot tbn.1 (p-ref)) (dot tbn.2.1 (p-ref))`
realized as `Complex.arg` of the corresponding plane vector. -/
theorem angle_lt_decides_signed_angle (ref a b : Vec3 ℝ)
    (tbn : Vec3 ℝ × Vec3 ℝ × Vec3 ℝ) :
    (angle_lt ref tbn a b = true) ↔
      (⟨dot tbn.2.1 (a - ref), dot tbn.1 (a - ref)⟩ : ℂ).arg <
        (⟨dot tbn.2.1 (b - ref), dot tbn.1 (b - ref)⟩ : ℂ).arg := by
  simp only [angle_lt, signed_angle_args]
  exact atan2_lt_iff_arg_lt _ _ _ _

set_option maxHeartbeats 16000000 in
/-- On every concrete input evaluated in this file, no two distinct collected
vertices of any side compare equal under the angle comparator, so every
correct sort (in particular `std::sort` and the insertion sort of the
embedding) produces the same uniquely determined vertex order. -/
theorem concrete_inputs_angle_tie_free :
    has_angle_tie permInputA = false ∧ has_angle_tie permInputB = false ∧
    has_angle_tie cubeInput = false :=
  ⟨by decide, by decide, by decide⟩

/-! ## Claims -/

set_option maxHeartbeats 4000000 in
/-- C1: for `axis_count = 3`, axes equal to the three standard basis vectors
and extents `(-1, 1)` on every axis, `calc_kdop_volume` returns exactly `8`,
the volume of the cube `[-1,1]³` (so in particular within the claim's `1e-4`
tolerance). -/
theorem C1_cube_volume_is_eight : calc_kdop_volume cubeInput = 8 := by decide

/-- C2: for every axis/extent list, `calc_kdop_volume` is nonnegative —
every face contributes a sum of `|det|/6` tetrahedron volumes. -/
theorem C2_volume_nonneg (axesRanges : List (AxisRange α)) :
    0 ≤ calc_kdop_volume axesRanges := by
  unfold calc_kdop_volume
  exact sum_sides_nonneg axesRanges _ 0 _

/-- C5: for unit axes `a`, `b` with `d = dot a b`, `d*d ≠ 1`, the point
`c1•a + c2•b` computed by the kernel's 2×2 solve (`c1 = (h1 - h2*d)*inv`,
`c2 = (h2 - h1*d)*inv`, `inv = 1/(1 - d*d)`) lies on both planes:
its projection on `a` is `h1` and its projection on `b` is `h2`. -/
theorem C5_edge_point_on_both_planes (a b : Vec3 α) (h1 h2 : α)
    (ha : dot a a = 1) (hb : dot b b = 1) (hd : dot a b * dot a b ≠ 1) :
    dot (edge_point a b h1 h2) a = h1 ∧ dot (edge_point a b h1 h2) b = h2 := by
  have hd' : 1 - dot a b * dot a b ≠ 0 := sub_ne_zero_of_ne (Ne.symm hd)
  constructor
  · rw [edge_point, dot_combo_left, ha, dot_comm b a]
    field_simp
    ring
  · rw [edge_point, dot_combo_left, hb]
    field_simp
    ring

/-- Witness for C5 at the concrete input `a = (1,0,0)`, `b = (0,1,0)`,
`h1 = 2`, `h2 = -3` over `ℚ`. -/
theorem C5_witness :
    dot (edge_point (⟨1,0,0⟩ : Vec3 ℚ) ⟨0,1,0⟩ 2 (-3)) ⟨1,0,0⟩ = 2 ∧
    dot (edge_point (⟨1,0,0⟩ : Vec3 ℚ) ⟨0,1,0⟩ 2 (-3)) ⟨0,1,0⟩ = -3 :=
  C5_edge_point_on_both_planes ⟨1,0,0⟩ ⟨0,1,0⟩ 2 (-3)
    (by decide) (by decide) (by decide)

/-- C6: for the degenerate input with a single axis `(1,0,0)` and extent
`(-1,1)`, `calc_kdop_volume` returns exactly `0` (no axis pair exists, every
side stays empty and is skipped); in the exact embedding the result is a
well-defined field element, with no crash and no non-finite value. -/
theorem C6_single_axis_volume_zero : calc_kdop_volume singleAxisInput = 0 := by
  decide

/-- C8: in both search drivers the best record is replaced exactly when the
newly evaluated volume is strictly below the current best (resetting the
stagnation counter); otherwise best volume and best axes are kept, the
counter is incremented and, once it exceeds the threshold (`1000` for the
sphere variant, `100` for the image variant), the step size is halved and
the counter reset; consequently the best volume never increases over a run. -/
theorem C8_accept_reject_and_monotone :
    (∀ (s : OptState α) (v : α) (axes : List (Vec3 α)), v < s.bestScore →
      sphere_accept_step s v axes =
        ⟨v, axes, 0, s.stepSize⟩ ∧
      image_accept_step s v axes =
        ⟨v, axes, 0, s.stepSize⟩) ∧
    (∀ (s : OptState α) (v : α) (axes : List (Vec3 α)), ¬ v < s.bestScore →
      ((sphere_accept_step s v axes).bestScore = s.bestScore ∧
       (sphere_accept_step s v axes).bestAxes = s.bestAxes ∧
       (image_accept_step s v axes).bestScore = s.bestScore ∧
       (image_accept_step s v axes).bestAxes = s.bestAxes) ∧
      (1000 < s.failCount + 1 →
        (sphere_accept_step s v axes).failCount = 0 ∧
        (sphere_accept_step s v axes).stepSize = s.stepSize * (1/2)) ∧
      (¬ 1000 < s.failCount + 1 →
        (sphere_accept_step s v axes).failCount = s.failCount + 1 ∧
        (sphere_accept_step s v axes).stepSize = s.stepSize) ∧
      (100 < s.failCount + 1 →
        (image_accept_step s v axes).failCount = 0 ∧
        (image_accept_step s v axes).stepSize = s.stepSize * (1/2)) ∧
      (¬ 100 < s.failCount + 1 →
        (image_accept_step s v axes).failCount = s.failCount + 1 ∧
        (image_accept_step s v axes).stepSize = s.stepSize)) ∧
    (∀ (s0 : OptState α) (proposals : List (α × List (Vec3 α))),
      (run_search sphere_accept_step s0 proposals).bestScore ≤ s0.bestScore ∧
      (run_search image_accept_step s0 proposals).bestScore ≤ s0.bestScore) := by
  refine ⟨?_, ?_, ?_⟩
  · intro s v axes h
    constructor <;> simp [sphere_accept_step, image_accept_step, accept_step, h]
  · intro s v axes h
    refine ⟨?_, ?_, ?_, ?_, ?_⟩
    · simp [sphere_accept_step, image_accept_step, accept_step, h]
      split_ifs <;> simp
    · intro hth
      simp [sphere_accept_step, accept_step, h, hth]
    · intro hth
      simp [sphere_accept_step, accept_step, h, hth]
    · intro hth
      simp [image_accept_step, accept_step, h, hth]
    · intro hth
      simp [image_accept_step, accept_step, h, hth]
  · intro s0 proposals
    exact ⟨run_search_foldl_le 1000 s0 proposals,
           run_search_foldl_le 100 s0 proposals⟩

/-- Witness for C8: a strict improvement (`3 < 10`) replaces the best record
and resets the stagnation counter, in both drivers. -/
theorem C8_witness :
    sphere_accept_step (⟨10, [], 5, 2⟩ : OptState ℚ) 3 [] = ⟨3, [], 0, 2⟩ ∧
    image_accept_step (⟨10, [], 5, 2⟩ : OptState ℚ) 3 [] = ⟨3, [], 0, 2⟩ :=
  C8_accept_reject_and_monotone.1 ⟨10, [], 5, 2⟩ 3 [] (by decide)

theorem axis_violation_nonneg (pos : Vec3 α) (ar : AxisRange α) :
    0 ≤ axis_violation pos ar := by
  unfold axis_violation
  dsimp only
  split_ifs with hlt hgt
  · linarith
  · linarith
  · exact le_refl 0

theorem axis_violation_eq_zero_iff (pos : Vec3 α) (ar : AxisRange α) :
    axis_violation pos ar = 0 ↔
      ar.2.1 ≤ dot pos ar.1 ∧ dot pos ar.1 ≤ ar.2.2 := by
  unfold axis_violation
  dsimp only
  split_ifs with hlt hgt
  · constructor
    · intro h; linarith
    · intro h; linarith [h.1]
  · constructor
    · intro h; linarith
    · intro h; linarith [h.2]
  · exact ⟨fun _ => ⟨le_of_not_lt hlt, le_of_not_lt hgt⟩, fun _ => rfl⟩

theorem ite_gt_eq_max (md d : α) : (if d > md then d else md) = max md d := by
  rcases le_total d md with h | h
  · rw [if_neg (not_lt.mpr h), max_eq_left h]
  · rcases eq_or_lt_of_le h with h' | h'
    · simp [h']
    · rw [if_pos h', max_eq_right h]

theorem spec_max_violation_nonneg (pos : Vec3 α) (l : List (AxisRange α)) :
    0 ≤ spec_max_violation pos l := by
  induction l with
  | nil => exact le_refl 0
  | cons ar rest ih =>
    have : spec_max_violation pos (ar :: rest)
        = max (axis_violation pos ar) (spec_max_violation pos rest) := rfl
    rw [this]
    exact le_trans ih (le_max_right _ _)

theorem dist_fold_eq (pos : Vec3 α) (l : List (AxisRange α)) :
    ∀ z : α, 0 ≤ z →
      l.foldl (fun max_dist ar =>
        let distance := axis_violation pos ar
        if distance > max_dist then distance else max_dist) z
      = max z (spec_max_violation pos l) := by
  induction l with
  | nil =>
    intro z hz
    simp only [List.foldl_nil, spec_max_violation, List.map_nil, List.foldr_nil]
    exact (max_eq_left hz).symm
  | cons ar rest ih =>
    intro z hz
    rw [List.foldl_cons]
    dsimp only
    rw [ite_gt_eq_max,
      ih (max z (axis_violation pos ar))
        (le_trans hz (le_max_left _ _))]
    have hspec : spec_max_violation pos (ar :: rest)
        = max (axis_violation pos ar) (spec_max_violation pos rest) := rfl
    rw [hspec, max_assoc]

theorem spec_max_violation_ge (pos : Vec3 α) (l : List (AxisRange α)) :
    ∀ ar ∈ l, axis_violation pos ar ≤ spec_max_violation pos l := by
  induction l with
  | nil => intro ar har; cases har
  | cons hd rest ih =>
    intro ar har
    have hcons : spec_max_violation pos (hd :: rest)
        = max (axis_violation pos hd) (spec_max_violation pos rest) := rfl
    rcases List.mem_cons.mp har with h | h
    · rw [h, hcons]; exact le_max_left _ _
    · rw [hcons]
      exact le_trans (ih ar h) (le_max_right _ _)

theorem spec_max_violation_eq_zero (pos : Vec3 α) (l : List (AxisRange α))
    (hall : ∀ ar ∈ l, ar.2.1 ≤ dot pos ar.1 ∧ dot pos ar.1 ≤ ar.2.2) :
    spec_max_violation pos l = 0 := by
  induction l with
  | nil => rfl
  | cons hd rest ih =>
    have hcons : spec_max_violation pos (hd :: rest)
        = max (axis_violation pos hd) (spec_max_violation pos rest) := rfl
    rw [hcons,
      (axis_violation_eq_zero_iff pos hd).mpr
        (hall hd (List.mem_cons_self hd rest)),
      ih (fun ar har => hall ar (List.mem_cons_of_mem hd har))]
    exact max_self 0

/-- C4: `kdop_distance` returns the maximum over all axes of the amount by
which the point's projection falls outside that axis's `[min, max]` range
(`0` for a satisfied axis): it equals the maximum of the per-axis violations,
is nonnegative, bounds every per-axis violation, and vanishes exactly when
the point satisfies every half-space constraint. -/
theorem C4_kdop_distance_is_max_violation (pos : Vec3 α)
    (l : List (AxisRange α)) :
    kdop_distance pos l = spec_max_violation pos l ∧
    0 ≤ kdop_distance pos l ∧
    (∀ ar ∈ l, axis_violation pos ar ≤ kdop_distance pos l) ∧
    (kdop_distance pos l = 0 ↔
      ∀ ar ∈ l, ar.2.1 ≤ dot pos ar.1 ∧ dot pos ar.1 ≤ ar.2.2) := by
  have key : kdop_distance pos l = spec_max_violation pos l := by
    unfold kdop_distance
    rw [dist_fold_eq pos l 0 (le_refl 0),
      max_eq_right (spec_max_violation_nonneg pos l)]
  refine ⟨key, ?_, ?_, ?_⟩
  · rw [key]; exact spec_max_violation_nonneg pos l
  · intro ar har
    rw [key]
    exact spec_max_violation_ge pos l ar har
  · rw [key]
    constructor
    · intro hz ar har
      have hle : axis_violation pos ar ≤ 0 := by
        rw [← hz]
        exact spec_max_violation_ge pos l ar har
      exact (axis_violation_eq_zero_iff pos ar).mp
        (le_antisymm hle (axis_violation_nonneg pos ar))
    · exact spec_max_violation_eq_zero pos l

/-- Witness for C4 at the concrete point `(2,0,0)` against the cube: the
`x`-axis violation (`1`) is bounded by the returned distance. -/
theorem C4_witness :
    axis_violation (⟨2,0,0⟩ : Vec3 ℚ) (⟨1,0,0⟩, -1, 1)
      ≤ kdop_distance ⟨2,0,0⟩ cubeInput :=
  (C4_kdop_distance_is_max_violation ⟨2,0,0⟩ cubeInput).2.2.1
    (⟨1,0,0⟩, -1, 1) (by decide)

/-- C9: the sphere optimizer's final print loop zeroes every component below
`5e-3` in absolute value and renormalizes, for every axis including locked
ones; hence for some locked-axis inputs the printed axis differs from the
normalized caller input (which, being locked, is also the internally
optimized best axis).  Witnessed by the input `(1, 0.003, 0)`. -/
theorem C9_final_print_changes_locked_axis :
    ∃ (input u w : Vec3 ℝ), NormalizesTo input u ∧
      printed_axis_list [u] [w] ∧ w ≠ u := by
  have h9 : (0:ℝ) ≤ 1000009/1000000 := by norm_num
  set L : ℝ := Real.sqrt (1000009/1000000) with hLdef
  have hL2 : L^2 = 1000009/1000000 := Real.sq_sqrt h9
  have hLpos : 0 < L := Real.sqrt_pos.mpr (by norm_num)
  have hL1 : 1 < L := by nlinarith [hL2, hLpos]
  have hL4 : L < 2 := by nlinarith [hL2, hLpos]
  refine ⟨⟨1, 3/1000, 0⟩, ⟨1/L, 3/1000/L, 0⟩, ⟨1, 0, 0⟩, ?_, ?_, ?_⟩
  · refine ⟨1/L, by positivity, ?_, ?_⟩
    · simp only [Vec3.smul_def, Vec3.mk.injEq]
      refine ⟨by ring, by ring, by ring⟩
    · simp only [dot]
      field_simp
      nlinarith [hL2]
  · have h5 : (5:ℝ)/1000 < 1/L := by
      rw [div_lt_div_iff₀ (by norm_num) hLpos]
      nlinarith
    have hx : ¬ |1/L| < 5/1000 := by
      rw [abs_of_pos (by positivity)]
      exact not_lt.mpr h5.le
    have hy : |3/1000/L| < 5/1000 := by
      rw [abs_of_pos (by positivity)]
      calc (3:ℝ)/1000/L < 3/1000 := div_lt_self (by norm_num) hL1
        _ < 5/1000 := by norm_num
    have hz0 : |(0:ℝ)| < 5/1000 := by
      rw [abs_zero]; norm_num
    have hsnap : snap_small_components (⟨1/L, 3/1000/L, 0⟩ : Vec3 ℝ)
        = ⟨1/L, 0, 0⟩ := by
      unfold snap_small_components
      dsimp only
      rw [if_neg hx, if_pos hy, if_pos hz0]
    refine List.Forall₂.cons ?_ List.Forall₂.nil
    rw [hsnap]
    refine ⟨L, hLpos, ?_, ?_⟩
    · simp only [Vec3.smul_def, Vec3.mk.injEq]
      refine ⟨?_, by ring, by ring⟩
      field_simp
    · simp [dot]
  · intro h
    have hy := congrArg Vec3.y h
    simp only at hy
    have : (0:ℝ) < 3/1000/L := by positivity
    rw [← hy] at this
    exact lt_irrefl 0 this

theorem dot_ray (pos dir axis : Vec3 α) (t : α) :
    dot (pos + t • dir) axis = dot pos axis + t * dot dir axis := by
  simp only [dot, Vec3.add_def, Vec3.smul_def]
  ring

theorem not_perp_ne_zero (d : α) (h : ¬ |d| < traceEps) : d ≠ 0 := by
  intro h0
  apply h
  rw [h0, abs_zero]
  unfold traceEps
  norm_num

theorem affine_le_iff_pos (d p x t : α) (hd : 0 < d) :
    (x - p) * (1/d) ≤ t ↔ x ≤ p + t * d := by
  rw [mul_one_div, div_le_iff₀ hd]
  constructor <;> intro <;> linarith

theorem le_affine_iff_pos (d p x t : α) (hd : 0 < d) :
    t ≤ (x - p) * (1/d) ↔ p + t * d ≤ x := by
  rw [mul_one_div, le_div_iff₀ hd]
  constructor <;> intro <;> linarith

theorem affine_le_iff_neg (d p x t : α) (hd : d < 0) :
    (x - p) * (1/d) ≤ t ↔ p + t * d ≤ x := by
  rw [mul_one_div, div_le_iff_of_neg hd]
  constructor <;> intro <;> linarith

theorem le_affine_iff_neg (d p x t : α) (hd : d < 0) :
    t ≤ (x - p) * (1/d) ↔ x ≤ p + t * d := by
  rw [mul_one_div, le_div_iff_of_neg hd]
  constructor <;> intro <;> linarith

/-- The parameter interval `[min t0 t1, max t0 t1]` computed by
`kdop_trace_range` for one slab contains `t` exactly when the ray point's
projection lies between the slab's two plane offsets. -/
theorem slab_iff (d p lo hi t : α) (hd : d ≠ 0) :
    (min ((lo - p) * (1/d)) ((hi - p) * (1/d)) ≤ t ∧
      t ≤ max ((lo - p) * (1/d)) ((hi - p) * (1/d))) ↔
    (min lo hi ≤ p + t * d ∧ p + t * d ≤ max lo hi) := by
  rcases hd.lt_or_lt with hneg | hpos
  · have h1d : (1:α)/d < 0 := one_div_neg.mpr hneg
    rcases le_total lo hi with hlh | hlh
    · have hm : (hi - p) * (1/d) ≤ (lo - p) * (1/d) :=
        mul_le_mul_of_nonpos_right (sub_le_sub_right hlh p) h1d.le
      rw [min_eq_right hm, max_eq_left hm, min_eq_left hlh, max_eq_right hlh]
      constructor
      · rintro ⟨u, v⟩
        exact ⟨(le_affine_iff_neg d p lo t hneg).mp v,
               (affine_le_iff_neg d p hi t hneg).mp u⟩
      · rintro ⟨u, v⟩
        exact ⟨(affine_le_iff_neg d p hi t hneg).mpr v,
               (le_affine_iff_neg d p lo t hneg).mpr u⟩
    · have hm : (lo - p) * (1/d) ≤ (hi - p) * (1/d) :=
        mul_le_mul_of_nonpos_right (sub_le_sub_right hlh p) h1d.le
      rw [min_eq_left hm, max_eq_right hm, min_eq_right hlh, max_eq_left hlh]
      constructor
      · rintro ⟨u, v⟩
        exact ⟨(le_affine_iff_neg d p hi t hneg).mp v,
               (affine_le_iff_neg d p lo t hneg).mp u⟩
      · rintro ⟨u, v⟩
        exact ⟨(affine_le_iff_neg d p lo t hneg).mpr v,
               (le_affine_iff_neg d p hi t hneg).mpr u⟩
  · have h1d : 0 < (1:α)/d := one_div_pos.mpr hpos
    rcases le_total lo hi with hlh | hlh
    · have hm : (lo - p) * (1/d) ≤ (hi - p) * (1/d) :=
        mul_le_mul_of_nonneg_right (sub_le_sub_right hlh p) h1d.le
      rw [min_eq_left hm, max_eq_right hm, min_eq_left hlh, max_eq_right hlh]
      exact and_congr (affine_le_iff_pos d p lo t hpos)
        (le_affine_iff_pos d p hi t hpos)
    · have hm : (hi - p) * (1/d) ≤ (lo - p) * (1/d) :=
        mul_le_mul_of_nonneg_right (sub_le_sub_right hlh p) h1d.le
      rw [min_eq_right hm, max_eq_left hm, min_eq_right hlh, max_eq_left hlh]
      exact and_congr (affine_le_iff_pos d p hi t hpos)
        (le_affine_iff_pos d p lo t hpos)

/-- `trace_go` only tightens the interval: `near` never decreases and `far`
never increases. -/
theorem trace_go_mono (pos dir : Vec3 α) (e1 e2 : ℕ) :
    ∀ (l : List (AxisRange α)) (i : ℕ) (nf : α × α),
      nf.1 ≤ (trace_go pos dir e1 e2 i l nf).1 ∧
      (trace_go pos dir e1 e2 i l nf).2 ≤ nf.2 := by
  intro l
  induction l with
  | nil => intro i nf; exact ⟨le_refl _, le_refl _⟩
  | cons hd rest ih =>
    intro i nf
    obtain ⟨axis, lo, hi⟩ := hd
    simp only [trace_go]
    by_cases h1 : i = e1 ∨ i = e2
    · rw [if_pos h1]; exact ih (i+1) nf
    · rw [if_neg h1]
      by_cases h2 : |dot dir axis| < traceEps
      · rw [if_pos h2]; exact ih (i+1) nf
      · rw [if_neg h2]
        constructor
        · refine le_trans ?_ ((ih (i+1) _).1)
          exact le_max_left _ _
        · refine le_trans ((ih (i+1) _).2) ?_
          exact min_le_left _ _

/-- Every slab that `trace_go` actually processes (non-excluded index, ray
not nearly perpendicular) clamps the resulting interval inside that slab's
own parameter interval. -/
theorem trace_go_bounds (pos dir : Vec3 α) (e1 e2 : ℕ) :
    ∀ (l : List (AxisRange α)) (i : ℕ) (nf : α × α) (j : ℕ)
      (axis : Vec3 α) (lo hi : α),
      l.get? j = some (axis, lo, hi) → i + j ≠ e1 → i + j ≠ e2 →
      ¬ |dot dir axis| < traceEps →
      min ((lo - dot pos axis) * (1 / dot dir axis))
          ((hi - dot pos axis) * (1 / dot dir axis))
        ≤ (trace_go pos dir e1 e2 i l nf).1 ∧
      (trace_go pos dir e1 e2 i l nf).2
        ≤ max ((lo - dot pos axis) * (1 / dot dir axis))
              ((hi - dot pos axis) * (1 / dot dir axis)) := by
  intro l
  induction l with
  | nil => intro i nf j axis lo hi hget; cases hget
  | cons hd rest ih =>
    intro i nf j axis lo hi hget hne1 hne2 hperp
    obtain ⟨axis0, lo0, hi0⟩ := hd
    match j with
    | 0 =>
      have h0 : axis0 = axis ∧ lo0 = lo ∧ hi0 = hi := by
        injection hget with h
        injection h with ha h'
        injection h' with hl hh
        exact ⟨ha, hl, hh⟩
      obtain ⟨rfl, rfl, rfl⟩ := h0
      have hi1 : i ≠ e1 := by simpa using hne1
      have hi2 : i ≠ e2 := by simpa using hne2
      simp only [trace_go]
      rw [if_neg (by push_neg; exact ⟨hi1, hi2⟩)]
      rw [if_neg hperp]
      constructor
      · refine le_trans ?_ ((trace_go_mono pos dir e1 e2 rest (i+1) _).1)
        exact le_max_right _ _
      · refine le_trans ((trace_go_mono pos dir e1 e2 rest (i+1) _).2) ?_
        exact min_le_right _ _
    | j'+1 =>
      have hget' : rest.get? j' = some (axis, lo, hi) := hget
      simp only [trace_go]
      exact ih (i+1) _ j' axis lo hi hget'
        (by omega) (by omega) hperp

/-- If some `t` inside the seed interval satisfies every processed slab, the
resulting interval still contains `t` (so `near ≤ far`). -/
theorem trace_go_complete (pos dir : Vec3 α) (e1 e2 : ℕ) :
    ∀ (l : List (AxisRange α)) (i : ℕ) (nf : α × α) (t : α),
      nf.1 ≤ t → t ≤ nf.2 →
      (∀ (j : ℕ) (axis : Vec3 α) (lo hi : α),
        l.get? j = some (axis, lo, hi) → i + j ≠ e1 → i + j ≠ e2 →
        ¬ |dot dir axis| < traceEps →
        min lo hi ≤ dot pos axis + t * dot dir axis ∧
        dot pos axis + t * dot dir axis ≤ max lo hi) →
      (trace_go pos dir e1 e2 i l nf).1 ≤ t ∧
      t ≤ (trace_go pos dir e1 e2 i l nf).2 := by
  intro l
  induction l with
  | nil => intro i nf t h1 h2 _; exact ⟨h1, h2⟩
  | cons hd rest ih =>
    intro i nf t h1 h2 hall
    obtain ⟨axis0, lo0, hi0⟩ := hd
    simp only [trace_go]
    have hall' : ∀ (j : ℕ) (axis : Vec3 α) (lo hi : α),
        rest.get? j = some (axis, lo, hi) → (i+1) + j ≠ e1 → (i+1) + j ≠ e2 →
        ¬ |dot dir axis| < traceEps →
        min lo hi ≤ dot pos axis + t * dot dir axis ∧
        dot pos axis + t * dot dir axis ≤ max lo hi := by
      intro j axis lo hi hg hn1 hn2 hp
      exact hall (j+1) axis lo hi hg (by omega) (by omega) hp
    by_cases hskip : i = e1 ∨ i = e2
    · rw [if_pos hskip]; exact ih (i+1) nf t h1 h2 hall'
    · rw [if_neg hskip]
      by_cases hperp : |dot dir axis0| < traceEps
      · rw [if_pos hperp]; exact ih (i+1) nf t h1 h2 hall'
      · rw [if_neg hperp]
        have hd0 : dot dir axis0 ≠ 0 := not_perp_ne_zero _ hperp
        have hi1 : i + 0 ≠ e1 := by
          intro h; exact hskip (Or.inl (by omega))
        have hi2 : i + 0 ≠ e2 := by
          intro h; exact hskip (Or.inr (by omega))
        have hslab := hall 0 axis0 lo0 hi0 rfl hi1 hi2 hperp
        have ht := (slab_iff (dot dir axis0) (dot pos axis0) lo0 hi0 t hd0).mpr hslab
        exact ih (i+1) _ t (max_le h1 ht.1) (le_min h2 ht.2) hall'

/-- C3: whenever `kdop_trace_range` returns `near ≤ far`, every `t ∈ [near,
far]` puts `pos + t*dir` inside every non-excluded slab whose axis is not
nearly perpendicular to the ray (`|dot dir axis| < 1e-7` axes are skipped and
impose no constraint); "inside the slab" is being between the slab's two
plane offsets.  Conversely `near > far` means no `t` in the seed interval
`[-FLT_MAX, FLT_MAX]` satisfies all those slabs, so no valid intersection
segment exists. -/
theorem C3_trace_range_sound_and_complete (pos dir : Vec3 α)
    (l : List (AxisRange α)) (ex1 ex2 : ℕ) :
    (∀ t : α, (kdop_trace_range pos dir l ex1 ex2).1 ≤ t →
      t ≤ (kdop_trace_range pos dir l ex1 ex2).2 →
      ∀ (j : ℕ) (axis : Vec3 α) (lo hi : α),
        l.get? j = some (axis, lo, hi) → j ≠ ex1 → j ≠ ex2 →
        ¬ |dot dir axis| < traceEps →
        min lo hi ≤ dot (pos + t • dir) axis ∧
        dot (pos + t • dir) axis ≤ max lo hi) ∧
    (∀ t : α, -fltMax ≤ t → t ≤ fltMax →
      (∀ (j : ℕ) (axis : Vec3 α) (lo hi : α),
        l.get? j = some (axis, lo, hi) → j ≠ ex1 → j ≠ ex2 →
        ¬ |dot dir axis| < traceEps →
        min lo hi ≤ dot (pos + t • dir) axis ∧
        dot (pos + t • dir) axis ≤ max lo hi) →
      (kdop_trace_range pos dir l ex1 ex2).1
        ≤ (kdop_trace_range pos dir l ex1 ex2).2) := by
  constructor
  · intro t h1 h2 j axis lo hi hg hj1 hj2 hperp
    have hd0 : dot dir axis ≠ 0 := not_perp_ne_zero _ hperp
    have hb := trace_go_bounds pos dir ex1 ex2 l 0 (-fltMax, fltMax)
      j axis lo hi hg (by simpa using hj1) (by simpa using hj2) hperp
    have hin : min ((lo - dot pos axis) * (1 / dot dir axis))
          ((hi - dot pos axis) * (1 / dot dir axis)) ≤ t ∧
        t ≤ max ((lo - dot pos axis) * (1 / dot dir axis))
          ((hi - dot pos axis) * (1 / dot dir axis)) :=
      ⟨le_trans hb.1 h1, le_trans h2 hb.2⟩
    have := (slab_iff (dot dir axis) (dot pos axis) lo hi t hd0).mp hin
    rw [dot_ray]
    exact this
  · intro t hta htb hall
    have := trace_go_complete pos dir ex1 ex2 l 0 (-fltMax, fltMax) t hta htb
      (by
        intro j axis lo hi hg hn1 hn2 hp
        have := hall j axis lo hi hg (by simpa using hn1) (by simpa using hn2) hp
        rw [dot_ray] at this
        exact this)
    exact le_trans this.1 this.2

/-- Witness for C3 at the cube with no excluded axes and the ray along `x`
through the origin: the trace gives `[-1, 1]`, and `t = 0` lies inside the
`x` slab; the completeness part reports `near ≤ far`. -/
theorem C3_witness :
    (min (-1 : ℚ) 1 ≤ dot ((⟨0,0,0⟩ : Vec3 ℚ) + (0:ℚ) • ⟨1,0,0⟩) ⟨1,0,0⟩ ∧
      dot ((⟨0,0,0⟩ : Vec3 ℚ) + (0:ℚ) • ⟨1,0,0⟩) ⟨1,0,0⟩ ≤ max (-1 : ℚ) 1) ∧
    (kdop_trace_range (⟨0,0,0⟩ : Vec3 ℚ) ⟨1,0,0⟩ cubeInput 5 5).1
      ≤ (kdop_trace_range (⟨0,0,0⟩ : Vec3 ℚ) ⟨1,0,0⟩ cubeInput 5 5).2 :=
  ⟨(C3_trace_range_sound_and_complete (⟨0,0,0⟩ : Vec3 ℚ) ⟨1,0,0⟩ cubeInput 5 5).1
      0 (by decide) (by decide) 0 ⟨1,0,0⟩ (-1) 1 (by decide)
      (by decide) (by decide) (by decide),
   (C3_trace_range_sound_and_complete (⟨0,0,0⟩ : Vec3 ℚ) ⟨1,0,0⟩ cubeInput 5 5).2
      0 (by decide) (by decide)
      (by
        intro j axis lo hi hg hj1 hj2 hperp
        rcases j with _ | _ | _ | j
        · have h := Option.some.inj hg
          injection h with ha h'
          injection h' with hl hh
          subst ha; subst hl; subst hh
          decide
        · have h := Option.some.inj hg
          injection h with ha h'
          subst ha
          exact absurd (by decide) hperp
        · have h := Option.some.inj hg
          injection h with ha h'
          subst ha
          exact absurd (by decide) hperp
        · exact Option.noConfusion hg)⟩

theorem update_extents_get? :
    ∀ (es : List (α × α)) (axs : List (Vec3 α)) (p : Vec3 α) (j : ℕ)
      (e : α × α) (ax : Vec3 α),
      es.get? j = some e → axs.get? j = some ax →
      (update_extents p es axs).get? j
        = some (min e.1 (dot p ax), max e.2 (dot p ax)) := by
  intro es
  induction es with
  | nil => intro axs p j e ax he _; cases he
  | cons e0 es' ih =>
    intro axs p j e ax he ha
    cases axs with
    | nil => cases ha
    | cons ax0 axs' =>
      cases j with
      | zero =>
        have he' : e0 = e := Option.some.inj he
        have ha' : ax0 = ax := Option.some.inj ha
        subst he'; subst ha'
        rfl
      | succ j' =>
        exact ih axs' p j' e ax he ha

theorem fold_extents_get? (axes : List (Vec3 α)) (ax : Vec3 α) (j : ℕ)
    (ha : axes.get? j = some ax) :
    ∀ (points : List (Vec3 α)) (es : List (α × α)) (e : α × α),
      es.get? j = some e →
      (points.foldl (fun es' p => update_extents p es' axes) es).get? j
        = some (points.foldl
            (fun m q => (min m.1 (dot q ax), max m.2 (dot q ax))) e) := by
  intro points
  induction points with
  | nil => intro es e he; exact he
  | cons p ps ih =>
    intro es e he
    rw [List.foldl_cons, List.foldl_cons]
    exact ih (update_extents p es axes) _
      (update_extents_get? es axes p j e ax he ha)

theorem update_extents_length :
    ∀ (es : List (α × α)) (axs : List (Vec3 α)) (p : Vec3 α),
      (update_extents p es axs).length = min es.length axs.length := by
  intro es
  induction es with
  | nil =>
    intro axs p
    cases axs <;> simp [update_extents]
  | cons e0 es' ih =>
    intro axs p
    cases axs with
    | nil => simp [update_extents]
    | cons ax0 axs' =>
      simp [update_extents, ih axs' p, Nat.succ_min_succ]

theorem fold_extents_length (axes : List (Vec3 α)) :
    ∀ (points : List (Vec3 α)) (es : List (α × α)),
      es.length = axes.length →
      (points.foldl (fun es' p => update_extents p es' axes) es).length
        = axes.length := by
  intro points
  induction points with
  | nil => intro es h; exact h
  | cons p ps ih =>
    intro es h
    rw [List.foldl_cons]
    exact ih _ (by rw [update_extents_length, h, min_self])

theorem pair_fold_split (ax : Vec3 α) :
    ∀ (ps : List (Vec3 α)) (a b : α),
      ps.foldl (fun m q => (min m.1 (dot q ax), max m.2 (dot q ax))) (a, b)
        = (ps.foldl (fun m q => min m (dot q ax)) a,
           ps.foldl (fun m q => max m (dot q ax)) b) := by
  intro ps
  induction ps with
  | nil => intro a b; rfl
  | cons p ps' ih =>
    intro a b
    rw [List.foldl_cons, List.foldl_cons, List.foldl_cons]
    exact ih _ _

theorem per_axis_extent (ax : Vec3 α) (B : α) (points : List (Vec3 α))
    (hne : points ≠ []) (hb : ∀ p ∈ points, |dot p ax| ≤ B) :
    points.foldl (fun m q => (min m.1 (dot q ax), max m.2 (dot q ax))) (B, -B)
      = spec_proj_extent points ax := by
  cases points with
  | nil => exact absurd rfl hne
  | cons p ps =>
    rw [List.foldl_cons]
    have hd := hb p (List.mem_cons_self p ps)
    have h1 : min B (dot p ax) = dot p ax := min_eq_right (abs_le.mp hd).2
    have h2 : max (-B) (dot p ax) = dot p ax := max_eq_right (neg_le_of_abs_le hd)
    show ps.foldl _ (min B (dot p ax), max (-B) (dot p ax)) = _
    rw [h1, h2, pair_fold_split]
    rfl

/-- C10: the image evaluator's extent computation uses a fixed 32-entry
buffer.  For every call with `axis_count ≤ 32` (9 neighborhood points, dot
products below the `1e9` initialization sentinels as for every call the
program makes with normalized axes and gamma-decoded colors in `[0,1]³`),
all accesses are in bounds and each axis's extent is exactly the minimum and
maximum of `dot(point, axis)` over the 9 points; a call with `axis_count >
32` writes out of bounds, modelled as `none`. -/
theorem C10_find_kdop_extents_exact_and_bounded :
    (∀ (points axes : List (Vec3 α)),
      points.length = 9 → axes.length ≤ 32 →
      (∀ p ∈ points, ∀ ax ∈ axes, |dot p ax| ≤ 1000000000) →
      find_kdop_extents points axes
        = some (axes.map (spec_proj_extent points))) ∧
    (∀ (points axes : List (Vec3 α)), 32 < axes.length →
      find_kdop_extents points axes = none) := by
  constructor
  · intro points axes hlen9 hlen32 hb
    unfold find_kdop_extents
    rw [if_neg (not_lt.mpr hlen32)]
    congr 1
    apply List.ext_get?
    intro j
    rcases haj : axes.get? j with _ | ax
    · have hj : axes.length ≤ j := List.get?_eq_none.mp haj
      have h1 : (points.foldl (fun es' p => update_extents p es' axes)
          (axes.map fun _ => ((1000000000 : α), -1000000000))).get? j
            = none := by
        rw [List.get?_eq_none,
          fold_extents_length axes points _ (by rw [List.length_map])]
        exact hj
      have h2 : (axes.map (spec_proj_extent points)).get? j = none := by
        rw [List.get?_eq_none, List.length_map]
        exact hj
      rw [h1, h2]
    · have hes : (axes.map fun _ => ((1000000000:α), -1000000000)).get? j
          = some ((1000000000:α), (-1000000000:α)) := by
        rw [List.get?_map, haj]
        rfl
      have hne : points ≠ [] := by
        intro h
        rw [h] at hlen9
        cases hlen9
      have hbp : ∀ p ∈ points, |dot p ax| ≤ 1000000000 :=
        fun p hp => hb p hp ax (List.get?_mem haj)
      rw [fold_extents_get? axes ax j haj points _ _ hes,
        per_axis_extent ax 1000000000 points hne hbp, List.get?_map, haj]
      rfl
  · intro points axes h
    unfold find_kdop_extents
    rw [if_pos h]

/-- Witness for C10: a 9-point, 2-axis call lands in bounds with the exact
projection extents; a 33-axis call is out of bounds. -/
theorem C10_witness :
    find_kdop_extents ninePointsW smallAxesW
      = some (smallAxesW.map (spec_proj_extent ninePointsW)) ∧
    find_kdop_extents ([] : List (Vec3 ℚ)) (List.replicate 33 ⟨1,0,0⟩)
      = none :=
  ⟨C10_find_kdop_extents_exact_and_bounded.1 ninePointsW smallAxesW
      (by decide) (by decide) (by decide),
   C10_find_kdop_extents_exact_and_bounded.2 _ _ (by decide)⟩

set_option maxHeartbeats 16000000 in
/-- C7 counterexample: `permInputB` is a permutation of `permInputA` (the
same four `(axis, extent)` pairs with the first and third swapped), yet
`calc_kdop_volume` returns different values on the two orders (they differ
by roughly `8.5e-8`): the global reference-center vertex depends on the
iteration order, and with the near-parallel axis `axC` some accepted
vertices lie slightly outside the polytope, so the tetrahedron sums differ. -/
theorem C7_counterexample_reorder_changes_volume :
    permInputB.Perm permInputA ∧
    calc_kdop_volume permInputB ≠ calc_kdop_volume permInputA := by
  constructor
  · decide
  · decide

set_option maxHeartbeats 16000000 in
/-- C7 amended: the computed volume is *not* exactly invariant under
reordering of the axis/extent list (see the counterexample, where the
difference is of the order of the `1e-5` acceptance tolerance through the
order-dependent reference-center choice); for the standard-basis cube with
extents `(-1,1)`, however, all six axis orders return exactly `8`. -/
theorem C7_amended_cube_order_invariant :
    calc_kdop_volume [((⟨1,0,0⟩ : Vec3 ℚ),-1,1), (⟨0,1,0⟩,-1,1), (⟨0,0,1⟩,-1,1)] = 8 ∧
    calc_kdop_volume [((⟨1,0,0⟩ : Vec3 ℚ),-1,1), (⟨0,0,1⟩,-1,1), (⟨0,1,0⟩,-1,1)] = 8 ∧
    calc_kdop_volume [((⟨0,1,0⟩ : Vec3 ℚ),-1,1), (⟨1,0,0⟩,-1,1), (⟨0,0,1⟩,-1,1)] = 8 ∧
    calc_kdop_volume [((⟨0,1,0⟩ : Vec3 ℚ),-1,1), (⟨0,0,1⟩,-1,1), (⟨1,0,0⟩,-1,1)] = 8 ∧
    calc_kdop_volume [((⟨0,0,1⟩ : Vec3 ℚ),-1,1), (⟨1,0,0⟩,-1,1), (⟨0,1,0⟩,-1,1)] = 8 ∧
    calc_kdop_volume [((⟨0,0,1⟩ : Vec3 ℚ),-1,1), (⟨0,1,0⟩,-1,1), (⟨1,0,0⟩,-1,1)] = 8 :=
  ⟨by decide, by decide, by decide, by decide, by decide, by decide⟩

end KDop
